import Mathlib

/-!
Verification of `generate_test_sound.py`: a straight-line script that
synthesizes a 150 ms, 440 Hz sine tone, quantizes it to signed 16-bit PCM,
and writes it as a mono WAV file.

The floating-point arithmetic of the script is embedded over the real
numbers (the idealized semantics the specification itself uses); the
integer and byte-level parts (sample count, byte encodings, WAV header)
are embedded computably over naturals, integers and rationals.
-/

namespace GenTestSound

/-- Sample rate in Hz, source line 12: `sample_rate = 44100`. -/
def sample_rate : ℕ := 44100

/-- Duration in seconds, source line 13: `duration = 0.15`, as the exact
rational 15/100. -/
def duration : ℚ := 15 / 100

/-- Tone frequency in Hz, source line 14: `frequency = 440.0`. -/
def frequency : ℝ := 440

/-- Peak amplitude, source line 15: `amplitude = 0.3`. -/
noncomputable def amplitude : ℝ := 3 / 10

/-- Source line 18: `num_samples = int(sample_rate * duration)`. Python
`int()` truncates toward zero; the product is nonnegative, so this is the
floor of the product. -/
def num_samples : ℕ := (⌊(sample_rate : ℚ) * duration⌋).toNat

/-- Truncation toward zero, the behavior of Python `int()` applied to a
(finite) float. -/
noncomputable def truncToZero (x : ℝ) : ℤ := if 0 ≤ x then ⌊x⌋ else ⌈x⌉

/-- Source line 23, generalized over the amplitude value `a`:
`sample = a * math.sin(2.0 * math.pi * frequency * i / sample_rate)`. -/
noncomputable def sampleAmp (a : ℝ) (i : ℕ) : ℝ :=
  a * Real.sin (2 * Real.pi * frequency * (i : ℝ) / (sample_rate : ℝ))

/-- The i-th synthesized floating-point sample, source line 23 with the
fixed amplitude of the script. -/
noncomputable def sample (i : ℕ) : ℝ := sampleAmp amplitude i

/-- Source line 25, generalized over the amplitude value:
`pcm_sample = int(sample * 32767.0)`. -/
noncomputable def pcmAmp (a : ℝ) (i : ℕ) : ℤ := truncToZero (sampleAmp a i * 32767)

/-- The i-th quantized PCM value, source line 25 with the fixed amplitude. -/
noncomputable def pcm_sample (i : ℕ) : ℤ := pcmAmp amplitude i

/-- The list `samples` accumulated by the loop of source lines 21-26. -/
noncomputable def samples : List ℤ := (List.range num_samples).map pcm_sample

/-! Byte-level encodings: `struct.pack` and the header written by the
Python `wave` module. Bytes are naturals below 256. -/

/-- Little-endian encoding of an unsigned 16-bit value. -/
def u16le (n : ℕ) : List ℕ := [n % 256, n / 256 % 256]

/-- Little-endian encoding of an unsigned 32-bit value. -/
def u32le (n : ℕ) : List ℕ :=
  [n % 256, n / 256 % 256, n / 65536 % 256, n / 16777216 % 256]

/-- Twos-complement little-endian encoding of a signed 16-bit value
(unchecked); the byte layout produced by `struct.pack` with format `<h`. -/
def i16le (z : ℤ) : List ℕ := u16le (z % 65536).toNat

/-- Source line 38: `struct.pack` with format <h succeeds exactly when the
value fits in a signed 16-bit integer, raising `struct.error` otherwise. -/
def packInt16 (z : ℤ) : Option (List ℕ) :=
  if -32768 ≤ z ∧ z ≤ 32767 then some (i16le z) else none

/-- ASCII bytes of the tag RIFF. -/
def asciiRIFF : List ℕ := [82, 73, 70, 70]

/-- ASCII bytes of the tag WAVE. -/
def asciiWAVE : List ℕ := [87, 65, 86, 69]

/-- ASCII bytes of the tag fmt followed by a space. -/
def asciiFMT : List ℕ := [102, 109, 116, 32]

/-- ASCII bytes of the tag data. -/
def asciiDATA : List ℕ := [100, 97, 116, 97]

/-- The 44-byte canonical WAV header the Python `wave` module writes for the
parameters set on source lines 32-34 (PCM format 1), with `nframes` frames
of data: RIFF tag, declared size 36 + datasize, WAVE tag, fmt subchunk of
size 16 holding format, channels, frame rate, byte rate, block align and
bits per sample, then the data tag and datasize. -/
def wavHeader (nchannels sampwidth framerate nframes : ℕ) : List ℕ :=
  asciiRIFF ++ u32le (36 + nframes * nchannels * sampwidth) ++ asciiWAVE ++
  asciiFMT ++ u32le 16 ++ u16le 1 ++ u16le nchannels ++ u32le framerate ++
  u32le (framerate * nchannels * sampwidth) ++ u16le (nchannels * sampwidth) ++
  u16le (sampwidth * 8) ++ asciiDATA ++ u32le (nframes * nchannels * sampwidth)

/-- The full byte sequence of the WAV file written for a list of PCM
values, with the parameters fixed on source lines 30-34: mono, 2 bytes per
sample, the fixed sample rate. -/
def wavBytes (data : List ℤ) : List ℕ :=
  wavHeader 1 2 sample_rate data.length ++ (data.map i16le).flatten

/-- The bytes of the file the script writes. -/
noncomputable def outputBytes : List ℕ := wavBytes samples

/-- Fixed output path, source line 29. -/
def output_file : String := "assets/sounds/menu_click.wav"

/-- Read back an unsigned little-endian 16-bit field at byte offset `k`. -/
def readU16 (bs : List ℕ) (k : ℕ) : ℕ := bs.getD k 0 + 256 * bs.getD (k + 1) 0

/-- Read back an unsigned little-endian 32-bit field at byte offset `k`. -/
def readU32 (bs : List ℕ) (k : ℕ) : ℕ :=
  bs.getD k 0 + 256 * bs.getD (k + 1) 0 + 65536 * bs.getD (k + 2) 0 +
    16777216 * bs.getD (k + 3) 0

/-! Basic facts about the embedded definitions. -/

/-- The sample count evaluates to 6615. -/
theorem num_samples_eq : num_samples = 6615 := by
  have h : (sample_rate : ℚ) * duration = (6615 : ℤ) := by
    norm_num [sample_rate, duration]
  rw [num_samples, h, Int.floor_intCast]
  rfl

/-- Truncation toward zero never increases the absolute value. -/
theorem truncToZero_abs_le (x : ℝ) : |(truncToZero x : ℝ)| ≤ |x| := by
  unfold truncToZero
  rcases le_or_lt 0 x with hx | hx
  · rw [if_pos hx, abs_of_nonneg hx, abs_of_nonneg]
    · exact Int.floor_le x
    · exact_mod_cast Int.floor_nonneg.2 hx
  · rw [if_neg (not_le.2 hx), abs_of_neg hx, abs_of_nonpos]
    · exact neg_le_neg (Int.le_ceil x)
    · exact_mod_cast Int.ceil_le.2 (by exact_mod_cast hx.le : x ≤ ((0 : ℤ) : ℝ))

/-- Truncation toward zero moves a real number by strictly less than 1. -/
theorem abs_truncToZero_sub_lt (x : ℝ) : |(truncToZero x : ℝ) - x| < 1 := by
  unfold truncToZero
  rcases le_or_lt 0 x with hx | hx
  · rw [if_pos hx, abs_sub_lt_iff]
    constructor
    · linarith [Int.floor_le x]
    · linarith [Int.lt_floor_add_one x]
  · rw [if_neg (not_le.2 hx), abs_sub_lt_iff]
    constructor
    · linarith [Int.ceil_lt_add_one x]
    · linarith [Int.le_ceil x]

/-- Truncation toward zero and rounding to nearest differ by at most 1. -/
theorem abs_truncToZero_sub_round_le (x : ℝ) : |truncToZero x - round x| ≤ 1 := by
  have h1 : ⌊x⌋ ≤ round x := by
    rw [round_eq]
    exact Int.floor_le_floor (by linarith)
  have h2 : round x ≤ ⌊x⌋ + 1 := by
    rw [round_eq]
    have : ⌊x + 1 / 2⌋ < ⌊x⌋ + 2 := by
      apply Int.floor_lt.2
      push_cast
      linarith [Int.lt_floor_add_one x]
    omega
  have h3 : ⌈x⌉ ≤ ⌊x⌋ + 1 := Int.ceil_le_floor_add_one x
  have h4 : ⌊x⌋ ≤ ⌈x⌉ := Int.floor_le_ceil x
  unfold truncToZero
  rcases le_or_lt 0 x with hx | hx
  · rw [if_pos hx, abs_le]; omega
  · rw [if_neg (not_le.2 hx), abs_le]; omega

/-- The magnitude of a synthesized sample is at most the amplitude. -/
theorem abs_sampleAmp_le (a : ℝ) (i : ℕ) : |sampleAmp a i| ≤ |a| := by
  unfold sampleAmp
  rw [abs_mul]
  have hs : |Real.sin (2 * Real.pi * frequency * (i : ℝ) / (sample_rate : ℝ))| ≤ 1 :=
    abs_le.2 ⟨Real.neg_one_le_sin _, Real.sin_le_one _⟩
  calc |a| * |Real.sin (2 * Real.pi * frequency * (i : ℝ) / (sample_rate : ℝ))|
      ≤ |a| * 1 := by
        exact mul_le_mul_of_nonneg_left hs (abs_nonneg a)
    _ = |a| := mul_one _

/-- The magnitude of a quantized PCM value is at most the amplitude scaled
by 32767, read over the reals. -/
theorem abs_pcmAmp_le (a : ℝ) (i : ℕ) : |(pcmAmp a i : ℝ)| ≤ |a| * 32767 := by
  unfold pcmAmp
  calc |(truncToZero (sampleAmp a i * 32767) : ℝ)|
      ≤ |sampleAmp a i * 32767| := truncToZero_abs_le _
    _ = |sampleAmp a i| * 32767 := by
        rw [abs_mul, abs_of_nonneg (by norm_num : (0 : ℝ) ≤ 32767)]
    _ ≤ |a| * 32767 := by
        exact mul_le_mul_of_nonneg_right (abs_sampleAmp_le a i) (by norm_num)

/-- The synthesized sample written out with the literal constants of the
script. -/
theorem sample_explicit (i : ℕ) :
    sample i = (3 / 10 : ℝ) * Real.sin (2 * Real.pi * 440 * (i : ℝ) / 44100) := by
  unfold sample sampleAmp amplitude frequency sample_rate
  norm_num

/-- Claim C1: for every i in [0, num_samples), the i-th synthesized sample
equals amplitude times sin(2 pi frequency i / sample_rate) with the fixed
constants sample_rate = 44100, frequency = 440.0, amplitude = 0.3. -/
theorem c1_sample_formula (i : ℕ) (_hi : i < num_samples) :
    sample i = (3 / 10 : ℝ) * Real.sin (2 * Real.pi * 440 * (i : ℝ) / 44100) :=
  sample_explicit i

/-- Witness for claim C1 at i = 0. -/
theorem c1_sample_formula_witness :
    sample 0 = (3 / 10 : ℝ) * Real.sin (2 * Real.pi * 440 * ((0 : ℕ) : ℝ) / 44100) :=
  c1_sample_formula 0 (by simp [num_samples_eq])

/-- Claim C2: each quantized PCM value equals the scaled sample rounded to
nearest, within a tolerance of 1 (the script truncates toward zero, which
differs from rounding by at most 1). -/
theorem c2_pcm_round (i : ℕ) (_hi : i < num_samples) :
    |pcm_sample i -
      round ((3 / 10 : ℝ) * Real.sin (2 * Real.pi * 440 * (i : ℝ) / 44100) * 32767)| ≤ 1 := by
  rw [← sample_explicit i]
  exact abs_truncToZero_sub_round_le (sample i * 32767)

/-- Witness for claim C2 at i = 1. -/
theorem c2_pcm_round_witness :
    |pcm_sample 1 -
      round ((3 / 10 : ℝ) * Real.sin (2 * Real.pi * 440 * ((1 : ℕ) : ℝ) / 44100) * 32767)| ≤ 1 :=
  c2_pcm_round 1 (by simp [num_samples_eq])

/-- Claim C3: the number of samples computed by the script equals both
round(sample_rate x duration) and floor(sample_rate x duration), and for
the literal constants it is 6615. -/
theorem c3_num_samples_value :
    num_samples = 6615 ∧
    (num_samples : ℤ) = round ((sample_rate : ℚ) * duration) ∧
    (num_samples : ℤ) = ⌊(sample_rate : ℚ) * duration⌋ := by
  have h : (sample_rate : ℚ) * duration = ((6615 : ℤ) : ℚ) := by
    norm_num [sample_rate, duration]
  refine ⟨num_samples_eq, ?_, ?_⟩
  · rw [h, round_intCast, num_samples_eq]
    rfl
  · rw [h, Int.floor_intCast, num_samples_eq]
    rfl

/-- Claim C5: dividing a stored PCM value by 32767 reproduces the original
sample within the quantization error 1/32767. -/
theorem c5_round_trip (i : ℕ) (_hi : i < num_samples) :
    |(pcm_sample i : ℝ) / 32767 - sample i| ≤ 1 / 32767 := by
  have hb : |(pcm_sample i : ℝ) - sample i * 32767| ≤ 1 :=
    le_of_lt (abs_truncToZero_sub_lt (sample i * 32767))
  have h : (pcm_sample i : ℝ) / 32767 - sample i
      = ((pcm_sample i : ℝ) - sample i * 32767) / 32767 := by
    ring
  rw [h, abs_div, abs_of_nonneg (by norm_num : (0 : ℝ) ≤ 32767)]
  gcongr

/-- Witness for claim C5 at i = 2. -/
theorem c5_round_trip_witness :
    |(pcm_sample 2 : ℝ) / 32767 - sample 2| ≤ 1 / 32767 :=
  c5_round_trip 2 (by simp [num_samples_eq])

/-- Claim C4: whenever the amplitude parameter lies in [0, 1] (its
documented range, source line 15), every quantized PCM value lies in
[-32767, 32767]; in particular every PCM value of the script fits in a
signed 16-bit integer. -/
theorem c4_int16_range :
    (∀ a : ℝ, 0 ≤ a → a ≤ 1 → ∀ i : ℕ, -32767 ≤ pcmAmp a i ∧ pcmAmp a i ≤ 32767) ∧
    ∀ i : ℕ, -32767 ≤ pcm_sample i ∧ pcm_sample i ≤ 32767 := by
  have key : ∀ a : ℝ, 0 ≤ a → a ≤ 1 →
      ∀ i : ℕ, -32767 ≤ pcmAmp a i ∧ pcmAmp a i ≤ 32767 := by
    intro a h0 h1 i
    have ha : |a| ≤ 1 := by
      rw [abs_of_nonneg h0]
      exact h1
    have hr : |(pcmAmp a i : ℝ)| ≤ 32767 := by
      calc |(pcmAmp a i : ℝ)| ≤ |a| * 32767 := abs_pcmAmp_le a i
        _ ≤ 1 * 32767 := by gcongr
        _ = 32767 := one_mul _
    have hz : |pcmAmp a i| ≤ (32767 : ℤ) := by
      exact_mod_cast hr
    exact abs_le.1 hz
  refine ⟨key, fun i => key amplitude ?_ ?_ i⟩
  · rw [amplitude]
    norm_num
  · rw [amplitude]
    norm_num

/-- Witness for claim C4 at a = 1, i = 7 and at the amplitude of the
script, i = 7. -/
theorem c4_int16_range_witness :
    (-32767 ≤ pcmAmp 1 7 ∧ pcmAmp 1 7 ≤ 32767) ∧
    (-32767 ≤ pcm_sample 7 ∧ pcm_sample 7 ≤ 32767) :=
  ⟨c4_int16_range.1 1 (by norm_num) (by norm_num) 7, c4_int16_range.2 7⟩

/-- With the fixed amplitude 0.3, the magnitude of every PCM value of the
script is at most 9830. -/
theorem pcm_sample_abs_le (i : ℕ) : |pcm_sample i| ≤ 9830 := by
  have hr : |(pcm_sample i : ℝ)| ≤ |(3 / 10 : ℝ)| * 32767 := abs_pcmAmp_le (3 / 10) i
  have hr2 : |(pcm_sample i : ℝ)| < 9831 := by
    rw [abs_of_nonneg (by norm_num : (0 : ℝ) ≤ 3 / 10)] at hr
    linarith
  have hz : |pcm_sample i| < (9831 : ℤ) := by
    exact_mod_cast hr2
  omega

/-- Claim C10: with the actual amplitude 0.3 every PCM value lies in
[-9830, 9830], packing with struct.pack format <h is always in range and
never raises, and the first PCM value is 0 because sin 0 = 0. -/
theorem c10_tight_range :
    (∀ i : ℕ, -9830 ≤ pcm_sample i ∧ pcm_sample i ≤ 9830) ∧
    (∀ i : ℕ, packInt16 (pcm_sample i) = some (i16le (pcm_sample i))) ∧
    pcm_sample 0 = 0 := by
  have hb : ∀ i : ℕ, -9830 ≤ pcm_sample i ∧ pcm_sample i ≤ 9830 := by
    intro i
    have := pcm_sample_abs_le i
    rw [abs_le] at this
    exact this
  refine ⟨hb, fun i => ?_, ?_⟩
  · have h := hb i
    rw [packInt16, if_pos]
    exact ⟨by omega, by omega⟩
  · have h0 : sample 0 = 0 := by
      unfold sample sampleAmp
      simp
    show truncToZero (sample 0 * 32767) = 0
    rw [h0, zero_mul, truncToZero, if_pos le_rfl, Int.floor_zero]

/-- The WAV header is always 44 bytes. -/
theorem wavHeader_length (c s f n : ℕ) : (wavHeader c s f n).length = 44 := by
  simp [wavHeader, u16le, u32le, asciiRIFF, asciiWAVE, asciiFMT, asciiDATA]

/-- Each packed sample contributes exactly 2 bytes. -/
theorem flatten_i16le_length (data : List ℤ) :
    ((data.map i16le).flatten).length = 2 * data.length := by
  induction data with
  | nil => rfl
  | cons z tl ih =>
    simp only [List.map_cons, List.flatten_cons, List.length_append, ih,
      List.length_cons, i16le, u16le]
    simp
    ring

/-- The sample list of the script holds 6615 values. -/
theorem samples_length : samples.length = 6615 := by
  simp [samples, num_samples_eq]

/-- The output file splits into the 44-byte header for 6615 frames followed
by the packed data. -/
theorem outputBytes_split :
    outputBytes = wavHeader 1 2 sample_rate 6615 ++ (samples.map i16le).flatten := by
  unfold outputBytes wavBytes
  rw [samples_length]

/-- Reading a 32-bit field that lies inside the left part of an appended
byte list only sees the left part. -/
theorem readU32_append (l l2 : List ℕ) (k : ℕ) (h : k + 3 < l.length) :
    readU32 (l ++ l2) k = readU32 l k := by
  unfold readU32
  rw [List.getD_append _ _ _ _ (by omega), List.getD_append _ _ _ _ (by omega),
    List.getD_append _ _ _ _ (by omega), List.getD_append _ _ _ _ (by omega)]

/-- Reading a 16-bit field that lies inside the left part of an appended
byte list only sees the left part. -/
theorem readU16_append (l l2 : List ℕ) (k : ℕ) (h : k + 1 < l.length) :
    readU16 (l ++ l2) k = readU16 l k := by
  unfold readU16
  rw [List.getD_append _ _ _ _ (by omega), List.getD_append _ _ _ _ (by omega)]

/-- Claim C7: the RIFF header of the written file declares a total size of
36 + data subchunk size, the data subchunk size equals the sample count
times 2 bytes, and the whole file is 44 + 13230 = 13274 bytes long. -/
theorem c7_riff_sizes :
    readU32 outputBytes 4 = 36 + readU32 outputBytes 40 ∧
    readU32 outputBytes 40 = num_samples * 2 ∧
    outputBytes.length = 13274 := by
  have h44 : (wavHeader 1 2 sample_rate 6615).length = 44 := wavHeader_length 1 2 sample_rate 6615
  refine ⟨?_, ?_, ?_⟩
  · rw [outputBytes_split, readU32_append _ _ _ (by omega), readU32_append _ _ _ (by omega)]
    decide
  · rw [outputBytes_split, readU32_append _ _ _ (by omega), num_samples_eq]
    decide
  · rw [outputBytes_split, List.length_append, h44, flatten_i16le_length, samples_length]

/-- Claim C8: the fmt subchunk of the written file reports 1 channel, a
sample rate of 44100, 16 bits per sample, a byte rate of 88200 and a block
align of 2; the data region holds the samples as twos-complement
little-endian 16-bit values; and the output path is the fixed relative path
assets/sounds/menu_click.wav. -/
theorem c8_fmt_subchunk :
    readU16 outputBytes 22 = 1 ∧
    readU32 outputBytes 24 = 44100 ∧
    readU16 outputBytes 34 = 16 ∧
    readU32 outputBytes 28 = 88200 ∧
    readU16 outputBytes 32 = 2 ∧
    outputBytes.drop 44 = (samples.map i16le).flatten ∧
    output_file = "assets/sounds/menu_click.wav" := by
  have h44 : (wavHeader 1 2 sample_rate 6615).length = 44 := wavHeader_length 1 2 sample_rate 6615
  refine ⟨?_, ?_, ?_, ?_, ?_, ?_, rfl⟩
  · rw [outputBytes_split, readU16_append _ _ _ (by omega)]
    decide
  · rw [outputBytes_split, readU32_append _ _ _ (by omega)]
    decide
  · rw [outputBytes_split, readU16_append _ _ _ (by omega)]
    decide
  · rw [outputBytes_split, readU32_append _ _ _ (by omega)]
    decide
  · rw [outputBytes_split, readU16_append _ _ _ (by omega)]
    decide
  · rw [outputBytes_split, ← h44, List.drop_left]

/-- The byte stream produced by the write loop of source lines 37-38: each
sample is packed with struct.pack, which fails on a value outside the
signed 16-bit range; otherwise the packed bytes are concatenated in order. -/
def packAll (data : List ℤ) : Option (List ℕ) :=
  (data.mapM packInt16).map List.flatten

/-- Packing succeeds on any list of in-range values and yields exactly the
unchecked little-endian encoding of each value. -/
theorem mapM_packInt16_eq (data : List ℤ)
    (h : ∀ z ∈ data, -32768 ≤ z ∧ z ≤ 32767) :
    data.mapM packInt16 = some (data.map i16le) := by
  induction data with
  | nil => rfl
  | cons z tl ih =>
    have hz := h z (List.mem_cons_self z tl)
    have htl := ih (fun w hw => h w (List.mem_cons_of_mem z hw))
    rw [List.mapM_cons, packInt16, if_pos hz, htl]
    rfl

/-- Every value in the sample list of the script is in the signed 16-bit
range. -/
theorem samples_in_range : ∀ z ∈ samples, -32768 ≤ z ∧ z ≤ 32767 := by
  intro z hz
  rcases List.mem_map.1 hz with ⟨i, _, rfl⟩
  have := pcm_sample_abs_le i
  rw [abs_le] at this
  exact ⟨by omega, by omega⟩

/-- One run of the script, source lines 18-38. The arithmetic phase is
modeled exactly: struct.pack is its only fallible step. The file-system
interaction is abstracted by one flag, `writeOk`, true when the output
directory exists and is writable; when it is false the write raises and
the run ends with an output-write error. -/
noncomputable def run (writeOk : Bool) : Except String (List ℕ) :=
  match packAll samples with
  | none => Except.error "struct.error: argument out of range"
  | some dataBytes =>
      if writeOk then
        Except.ok (wavHeader 1 2 sample_rate samples.length ++ dataBytes)
      else
        Except.error "OSError: output directory missing or not writable"

/-- The arithmetic phase of the run never fails. -/
theorem packAll_samples :
    packAll samples = some ((samples.map i16le).flatten) := by
  rw [packAll, mapM_packInt16_eq samples samples_in_range]
  rfl

/-- A run with a failing write ends in the output-write error. -/
theorem run_false_eq :
    run false = Except.error "OSError: output directory missing or not writable" := by
  unfold run
  rw [packAll_samples]
  rfl

/-- A run with a succeeding write produces exactly the WAV bytes. -/
theorem run_true_eq : run true = Except.ok outputBytes := by
  unfold run
  rw [packAll_samples, outputBytes_split, samples_length]
  rfl

/-- Claim C9: a run fails if and only if the output write fails; when the
write succeeds the run produces exactly the WAV bytes, so the arithmetic
phase has no failure mode of its own. -/
theorem c9_error_iff_write_fails :
    (∀ w : Bool, (∃ msg, run w = Except.error msg) ↔ w = false) ∧
    run true = Except.ok outputBytes := by
  constructor
  · intro w
    cases w with
    | false =>
      rw [run_false_eq]
      exact ⟨fun _ => rfl, fun _ => ⟨_, rfl⟩⟩
    | true =>
      rw [run_true_eq]
      constructor
      · rintro ⟨msg, hmsg⟩
        exact absurd hmsg (by simp)
      · intro h
        exact absurd h (by decide)
  · exact run_true_eq

/-- Witness for claim C9 at both values of the write flag. -/
theorem c9_error_iff_write_fails_witness :
    ((∃ msg, run false = Except.error msg) ↔ false = false) ∧
    ((∃ msg, run true = Except.error msg) ↔ true = false) :=
  ⟨c9_error_iff_write_fails.1 false, c9_error_iff_write_fails.1 true⟩

/-- Run-time environment a process could observe: a wall-clock time and a
process id. The script reads neither (source lines 11-38 contain no call
that inspects the environment), so its output is a constant function of
the environment. -/
structure Env where
  time : ℕ
  pid : ℕ

/-- The bytes the script writes, as a function of the environment of the
run: the straight-line source uses only the compiled-in constants, so the
result ignores the environment. -/
noncomputable def programOutput (_e : Env) : List ℕ := outputBytes

/-- Claim C6: two runs of the generator in any two environments (different
times, different process ids) produce byte-identical output; the output
bytes are a deterministic function of the compiled-in constants alone. -/
theorem c6_deterministic (e1 e2 : Env) : programOutput e1 = programOutput e2 := rfl

/-- Witness for claim C6 at two distinct concrete environments. -/
theorem c6_deterministic_witness :
    programOutput ⟨0, 0⟩ = programOutput ⟨12345, 678⟩ :=
  c6_deterministic ⟨0, 0⟩ ⟨12345, 678⟩

end GenTestSound
